import Mathlib

/-!
# Schema-migration runner (`migrations/migrations.go`)

A shallow embedding of the migration runner and proofs about its protocol:
statement splitting, script ordering, the check / skip / apply / record cycle
of one script inside a transaction, and the sequencing of a whole run.

## Modelling conventions

* Go strings are Lean `String`s: valid UTF-8 text, read as a sequence of
  Unicode code points by `strings.Split`, `strings.TrimSpace` and
  `strings.HasPrefix`, and as the sequence of its UTF-8 bytes by `<`.
* A Go `error` is its message (`String`); `nil` is `none`.
* The standard library and the database driver are not part of the
  repository.  `path/filepath.Join`, `crypto/md5`, the file system and the
  meaning of an SQL statement are fields of `Env`; the failures a driver
  call may report are the fields of `Faults`.
* The database is a committed state `Database D`: the user schema `D`, on
  which the statements of the scripts act, and the table `executed_scripts`,
  which only the ledger queries of the runner read and write.  A transaction
  `Tx` works on a private copy that replaces the committed state at commit
  and is dropped at rollback.
* Every driver call is recorded in an event log, so that "executes no
  statement" or "nothing is committed" are statements about that log.
  Console output (`fmt.Printf`) is not modelled.
-/

namespace Migrations

/-! ## Strings -/

/-- Go `unicode.IsSpace`: the code points with the Unicode White_Space property. -/
def isSpace (c : Char) : Bool :=
  c.toNat = 0x09 || c.toNat = 0x0A || c.toNat = 0x0B || c.toNat = 0x0C || c.toNat = 0x0D
  || c.toNat = 0x20 || c.toNat = 0x85 || c.toNat = 0xA0 || c.toNat = 0x1680
  || (0x2000 ≤ c.toNat && c.toNat ≤ 0x200A)
  || c.toNat = 0x2028 || c.toNat = 0x2029 || c.toNat = 0x202F || c.toNat = 0x205F
  || c.toNat = 0x3000

/-- Cut a text at every occurrence of `sep`; `n` occurrences give `n + 1` segments. -/
def splitChars (sep : Char) : List Char → List (List Char)
  | [] => [[]]
  | c :: cs =>
    if c = sep then [] :: splitChars sep cs
    else match splitChars sep cs with
      | [] => [[c]]
      | seg :: segs => (c :: seg) :: segs

/-- Go `strings.Split(s, sep)` for a separator of one character. -/
def stringsSplit (s : String) (sep : Char) : List String :=
  (splitChars sep s.data).map String.mk

/-- Remove the trailing characters that satisfy `p`. -/
def dropTrailing (p : Char → Bool) (l : List Char) : List Char :=
  (l.reverse.dropWhile p).reverse

/-- Go `strings.TrimSpace`: remove leading and trailing white space. -/
def stringsTrimSpace (s : String) : String :=
  ⟨dropTrailing isSpace (s.data.dropWhile isSpace)⟩

/-- Go `strings.HasPrefix`. -/
def stringsHasPrefix (s pre : String) : Bool :=
  pre.data.isPrefixOf s.data

/-- The UTF-8 encoding of a code point (Go `utf8.EncodeRune`), as a list of bytes. -/
def utf8Bytes (c : Char) : List Nat :=
  if c.toNat < 0x80 then [c.toNat]
  else if c.toNat < 0x800 then [0xC0 + c.toNat / 64, 0x80 + c.toNat % 64]
  else if c.toNat < 0x10000 then
    [0xE0 + c.toNat / 4096, 0x80 + c.toNat / 64 % 64, 0x80 + c.toNat % 64]
  else
    [0xF0 + c.toNat / 262144, 0x80 + c.toNat / 4096 % 64, 0x80 + c.toNat / 64 % 64,
      0x80 + c.toNat % 64]

/-- The bytes of a text. -/
def bytesOf : List Char → List Nat
  | [] => []
  | c :: cs => utf8Bytes c ++ bytesOf cs

/-- Lexicographic comparison of two byte sequences. -/
def lessBytes : List Nat → List Nat → Bool
  | _, [] => false
  | [], _ :: _ => true
  | a :: as, b :: bs =>
    if a < b then true
    else if b < a then false
    else lessBytes as bs

/-- Go `a < b` on strings: the byte-wise comparison. -/
def stringLess (a b : String) : Bool :=
  lessBytes (bytesOf a.data) (bytesOf b.data)

/-! ## Environment: standard library, file system, database driver -/

/-- An `os.FileInfo`, as far as the runner looks at it. -/
structure FileInfo where
  name : String
  size : Nat
  isDir : Bool
deriving DecidableEq, Repr

/-- A row of the table `executed_scripts` (`id` and `executed_at` are filled in by the database). -/
structure LedgerEntry where
  script_name : String
  checksum : String
deriving DecidableEq, Repr

/-- The committed state of the database. -/
structure Database (D : Type) where
  data : D
  executed_scripts : List LedgerEntry

/-- What the runner calls but does not define. -/
structure Env (D : Type) where
  /-- `filepath.Join(dir, name)` -/
  filepathJoin : String → String → String
  /-- `hex.EncodeToString` of `md5.Sum` -/
  md5Hex : String → String
  /-- `ioutil.ReadDir` -/
  readDir : String → Except String (List FileInfo)
  /-- `ioutil.ReadFile` -/
  readFile : String → Except String String
  /-- the effect of one SQL statement on the user schema, or the error the database reports -/
  execSQL : String → D → Except String D

/-- The errors the driver reports to the calls of one transaction, if any. -/
structure Faults where
  /-- error of `db.BeginTx` -/
  beginTx : Option String
  /-- error of the checksum lookup other than `sql.ErrNoRows` -/
  query : Option String
  /-- error of the `INSERT INTO executed_scripts` -/
  insert : Option String
  /-- error of `tx.Commit` -/
  commit : Option String

/-- A driver without failures. -/
def Faults.none : Faults := ⟨Option.none, Option.none, Option.none, Option.none⟩

/-- The calls made to the driver. -/
inductive Event where
  | createTable (ok : Bool)
  | beginTx (ok : Bool)
  | query (script_name : String)
  | exec (statement : String) (ok : Bool)
  | insert (script_name checksum : String) (ok : Bool)
  | commit (ok : Bool)
  | rollback
deriving DecidableEq, Repr

/-- An open transaction `*sql.Tx`. -/
structure Tx (D : Type) where
  /-- the committed state of the database -/
  committed : Database D
  /-- the state the transaction sees -/
  work : Database D
  /-- the driver calls made so far -/
  log : List Event

/-- The error the database reports for a second row with the same `script_name`. -/
def uniqueViolation : String :=
  "pq: duplicate key value violates unique constraint \"executed_scripts_script_name_key\""

/-- `db.BeginTx` -/
def beginTx {D : Type} (f : Faults) (db : Database D) : Except String (Tx D) :=
  match f.beginTx with
  | some err => .error err
  | Option.none => .ok ⟨db, db, [Event.beginTx true]⟩

/-- The outcome of `QueryRow(..).Scan(..)`. -/
inductive Row where
  | found (checksum : String)
  | errNoRows
  | failed (err : String)
deriving DecidableEq, Repr

/-- The checksum stored for a script name, if a row exists. -/
def lookup (ledger : List LedgerEntry) (script_name : String) : Option String :=
  (ledger.find? (fun e => e.script_name == script_name)).map LedgerEntry.checksum

/-- Run `SELECT checksum FROM executed_scripts WHERE script_name = $1` in the transaction. -/
def Tx.queryChecksum {D : Type} (f : Faults) (tx : Tx D) (script_name : String) : Row × Tx D :=
  let tx1 : Tx D := { tx with log := tx.log ++ [Event.query script_name] }
  match f.query with
  | some err => (Row.failed err, tx1)
  | Option.none =>
    match lookup tx.work.executed_scripts script_name with
    | some stored => (Row.found stored, tx1)
    | Option.none => (Row.errNoRows, tx1)

/-- Run `tx.ExecContext(ctx, statement)` for a statement of a script. -/
def Tx.execContext {D : Type} (env : Env D) (tx : Tx D) (statement : String) :
    Option String × Tx D :=
  match env.execSQL statement tx.work.data with
  | .error err => (some err, { tx with log := tx.log ++ [Event.exec statement false] })
  | .ok d =>
    (Option.none,
      { tx with work := { tx.work with data := d },
                log := tx.log ++ [Event.exec statement true] })

/-- Run `INSERT INTO executed_scripts (script_name, checksum) VALUES ($1, $2)`. -/
def Tx.insertLedger {D : Type} (f : Faults) (tx : Tx D) (script_name checksum : String) :
    Option String × Tx D :=
  match f.insert with
  | some err => (some err, { tx with log := tx.log ++ [Event.insert script_name checksum false] })
  | Option.none =>
    if (lookup tx.work.executed_scripts script_name).isSome then
      (some uniqueViolation,
        { tx with log := tx.log ++ [Event.insert script_name checksum false] })
    else
      (Option.none,
        { tx with
          work := { tx.work with
            executed_scripts := tx.work.executed_scripts ++ [⟨script_name, checksum⟩] },
          log := tx.log ++ [Event.insert script_name checksum true] })

/-- `tx.Commit()`: on success the state of the transaction becomes the committed state. -/
def Tx.commit {D : Type} (f : Faults) (tx : Tx D) : Option String × Tx D :=
  match f.commit with
  | some err => (some err, { tx with log := tx.log ++ [Event.commit false] })
  | Option.none => (Option.none, { tx with committed := tx.work, log := tx.log ++ [Event.commit true] })

/-- `tx.Rollback()`: the state of the transaction is dropped; after a commit nothing is left
to undo. -/
def Tx.rollback {D : Type} (tx : Tx D) : Tx D :=
  { tx with work := tx.committed, log := tx.log ++ [Event.rollback] }

/-! ## The runner -/

/-- The outcome of a call: the error returned, the committed state of the database afterwards,
and the driver calls made. -/
structure Result (D : Type) where
  err : Option String
  db : Database D
  events : List Event

/-- Go `scriptSource`. -/
structure scriptSource where
  path : String
  name : String
deriving DecidableEq, Repr

/-- Go `scriptSource.join`. -/
def scriptSource.join {D : Type} (env : Env D) (src : scriptSource) : String :=
  env.filepathJoin src.path src.name

/-- Go `calculateChecksum`. -/
def calculateChecksum {D : Type} (env : Env D) (content : String) : String :=
  env.md5Hex content

/-- Go `isScriptExecuted`. -/
def isScriptExecuted {D : Type} (env : Env D) (f : Faults) (tx : Tx D) (src : scriptSource)
    (checksum : String) : Except String Bool × Tx D :=
  match tx.queryChecksum f (src.join env) with
  | (Row.failed err, tx1) => (.error err, tx1)
  | (Row.errNoRows, tx1) => (.ok false, tx1)
  | (Row.found storedChecksum, tx1) =>
    if storedChecksum != checksum then
      (.error ("invalid checksum for migration '" ++ src.join env ++ "' (" ++ checksum
        ++ " != " ++ storedChecksum ++ ")"), tx1)
    else
      (.ok true, tx1)

/-- Go `saveScriptChecksum`. -/
def saveScriptChecksum {D : Type} (env : Env D) (f : Faults) (tx : Tx D) (src : scriptSource)
    (checksum : String) : Option String × Tx D :=
  tx.insertLedger f (src.join env) checksum

/-- The loop of `executeCommands` over the segments of the script. -/
def executeLoop {D : Type} (env : Env D) : Tx D → List String → Option String × Tx D
  | tx, [] => (none, tx)
  | tx, statement :: rest =>
    let trimmedStatement := stringsTrimSpace statement
    if trimmedStatement == "" || stringsHasPrefix trimmedStatement "--" then
      executeLoop env tx rest
    else
      match tx.execContext env trimmedStatement with
      | (some err, tx1) => (some err, tx1)
      | (none, tx1) => executeLoop env tx1 rest

/-- Go `executeCommands`. -/
def executeCommands {D : Type} (env : Env D) (tx : Tx D) (content : String) :
    Option String × Tx D :=
  executeLoop env tx (stringsSplit content ';')

/-- The error wrapper `fail` of `runScript`. -/
def failMessage (scriptPath err : String) : String :=
  "error running migtaion script " ++ scriptPath ++ ": " ++ err ++ "\n"

/-- The part of `runScript` that runs with the transaction open (after the `defer`). -/
def runScriptTx {D : Type} (env : Env D) (f : Faults) (tx : Tx D) (src : scriptSource)
    (content checksum : String) : Option String × Tx D :=
  let scriptPath := src.join env
  match isScriptExecuted env f tx src checksum with
  | (.error err, tx1) => (some (failMessage scriptPath err), tx1)
  | (.ok true, tx1) => (none, tx1)
  | (.ok false, tx1) =>
    match executeCommands env tx1 content with
    | (some err, tx2) => (some (failMessage scriptPath err), tx2)
    | (none, tx2) =>
      match saveScriptChecksum env f tx2 src checksum with
      | (some err, tx3) => (some (failMessage scriptPath err), tx3)
      | (none, tx3) =>
        match tx3.commit f with
        | (some err, tx4) => (some (failMessage scriptPath err), tx4)
        | (none, tx4) => (none, tx4)

/-- Go `runScript`: the deferred `tx.Rollback()` runs on every path once the transaction is
open. -/
def runScript {D : Type} (env : Env D) (f : Faults) (db : Database D) (src : scriptSource) :
    Result D :=
  let scriptPath := src.join env
  match env.readFile scriptPath with
  | .error err => ⟨some err, db, []⟩
  | .ok content =>
    let checksum := calculateChecksum env content
    match beginTx f db with
    | .error err => ⟨some (failMessage scriptPath err), db, [Event.beginTx false]⟩
    | .ok tx =>
      let r := runScriptTx env f tx src content checksum
      let tx1 := r.2.rollback
      ⟨r.1, tx1.committed, tx1.log⟩

/-- One pass of the inner loop of the insertion sort of Go `sort.Slice`: the new element moves
towards the front while it is less than its predecessor.  The sorted part is kept reversed, so
its head is the predecessor. -/
def insertBack (x : FileInfo) : List FileInfo → List FileInfo
  | [] => [x]
  | y :: ys => if stringLess x.name y.name then y :: insertBack x ys else x :: y :: ys

/-- Go `sort.Slice` with the comparison of `sortScripts`.  The library promises a permutation
sorted by `less`; the model is the insertion sort it runs on short slices. -/
def sortSlice (fileInfos : List FileInfo) : List FileInfo :=
  (fileInfos.foldl (fun sorted x => insertBack x sorted) []).reverse

/-- Go `sortScripts`. -/
def sortScripts (fileInfos : List FileInfo) : List FileInfo :=
  sortSlice fileInfos

/-- The loop of `runScripts`; the transaction of the `i`-th script meets the faults
`faults i`. -/
def runLoop {D : Type} (env : Env D) (scriptDir : String) :
    (Nat → Faults) → Database D → List FileInfo → Result D
  | _, db, [] => ⟨none, db, []⟩
  | faults, db, script :: rest =>
    let r := runScript env (faults 0) db ⟨scriptDir, script.name⟩
    match r.err with
    | some scriptError => ⟨some scriptError, r.db, r.events⟩
    | none =>
      let r1 := runLoop env scriptDir (fun i => faults (i + 1)) r.db rest
      ⟨r1.err, r1.db, r.events ++ r1.events⟩

/-- Go `runScripts`. -/
def runScripts {D : Type} (env : Env D) (faults : Nat → Faults) (db : Database D)
    (scriptDir : String) : Result D :=
  match env.readDir scriptDir with
  | .error err => ⟨some err, db, []⟩
  | .ok fileInfos => runLoop env scriptDir faults db (sortScripts fileInfos)

/-- Go `createExecutedScriptsTable`: `CREATE TABLE IF NOT EXISTS executed_scripts`.  The model
of the database always holds the table, so a successful call changes nothing. -/
def createExecutedScriptsTable (createFault : Option String) : Option String × List Event :=
  match createFault with
  | some err => (some err, [Event.createTable false])
  | none => (none, [Event.createTable true])

/-- Go `Migrate`: the result of `createExecutedScriptsTable` is not looked at. -/
def Migrate {D : Type} (env : Env D) (createFault : Option String) (faults : Nat → Faults)
    (db : Database D) : Result D :=
  let created := createExecutedScriptsTable createFault
  let scriptDir := "./migrations"
  let r := runScripts env faults db scriptDir
  match r.err with
  | some err => ⟨some err, r.db, created.2 ++ r.events⟩
  | none => ⟨none, r.db, created.2 ++ r.events⟩

/-! ## Reference definitions, following the specification -/

/-- The statement splitter as the specification words it: cut at every `;`, trim each segment,
drop the segments that are empty or begin with `--`, keep the order. -/
def splitStatements (content : String) : List String :=
  ((stringsSplit content ';').map stringsTrimSpace).filter
    (fun s => !(s == "" || stringsHasPrefix s "--"))

/-- Execute statements in order on the user schema, stopping at the first failure. -/
def execAll {D : Type} (env : Env D) : List String → D → Except String D
  | [], d => .ok d
  | s :: rest, d =>
    match env.execSQL s d with
    | .error err => .error err
    | .ok d1 => execAll env rest d1

/-- The statements submitted to the driver, in order. -/
def executedStatements (events : List Event) : List String :=
  events.filterMap (fun e => match e with
    | Event.exec s _ => some s
    | _ => none)

/-- Reference for a run: `runScript` on every entry in order, each call on the database the call
before left, whether or not that call failed. -/
def runAll {D : Type} (env : Env D) (scriptDir : String) :
    (Nat → Faults) → Database D → List FileInfo → List (Result D)
  | _, _, [] => []
  | faults, db, script :: rest =>
    let r := runScript env (faults 0) db ⟨scriptDir, script.name⟩
    r :: runAll env scriptDir (fun i => faults (i + 1)) r.db rest

/-- The committed database after a sequence of calls that started on `db`. -/
def dbAfter {D : Type} (db : Database D) : List (Result D) → Database D
  | [] => db
  | r :: rest => dbAfter r.db rest

/-- The driver calls of a sequence of calls, in order. -/
def allEvents {D : Type} : List (Result D) → List Event
  | [] => []
  | r :: rest => r.events ++ allEvents rest

/-- The driver calls of a run in which every script takes the skip branch: begin, lookup,
rollback for each script. -/
def skipEvents {D : Type} (env : Env D) (scriptDir : String) : List FileInfo → List Event
  | [] => []
  | script :: rest =>
    [Event.beginTx true, Event.query (scriptSource.join env ⟨scriptDir, script.name⟩),
      Event.rollback] ++ skipEvents env scriptDir rest

/-- One call of `runScript`: the environment and the faults it meets, and the script. -/
structure Call (D : Type) where
  env : Env D
  faults : Faults
  src : scriptSource

/-- The identity of the script of a call. -/
def Call.identity {D : Type} (c : Call D) : String :=
  c.src.join c.env

/-- One step of a history: the committed database before the call, the call, its outcome. -/
structure Step (D : Type) where
  before : Database D
  call : Call D
  result : Result D

/-- The history of a sequence of calls of `runScript`, each on the database the call before
left. -/
def runCalls {D : Type} : Database D → List (Call D) → List (Step D)
  | _, [] => []
  | db, c :: rest =>
    let r := runScript c.env c.faults db c.src
    ⟨db, c, r⟩ :: runCalls r.db rest

/-- The committed database after a sequence of calls of `runScript`. -/
def stateAfter {D : Type} : Database D → List (Call D) → Database D
  | db, [] => db
  | db, c :: rest => stateAfter (runScript c.env c.faults db c.src).db rest

/-- The transaction of a step committed. -/
def Step.committed {D : Type} (st : Step D) : Bool :=
  decide (Event.commit true ∈ st.result.events)

/-! ## Auxiliary definitions of the proofs -/

/-- Entry `a` may stand before entry `b` in ascending order of names: `b.name < a.name` is
false. -/
def nameLE (a b : FileInfo) : Prop :=
  stringLess b.name a.name = false

instance (a b : FileInfo) : Decidable (nameLE a b) :=
  inferInstanceAs (Decidable (stringLess b.name a.name = false))

/-- The loop of `executeCommands` over statements that are already trimmed and kept. -/
def execStmts {D : Type} (env : Env D) : Tx D → List String → Option String × Tx D
  | tx, [] => (none, tx)
  | tx, s :: rest =>
    match tx.execContext env s with
    | (some err, tx1) => (some err, tx1)
    | (none, tx1) => execStmts env tx1 rest

/-- The statements among a list of segments. -/
def keptStatements (segments : List String) : List String :=
  (segments.map stringsTrimSpace).filter (fun s => !(s == "" || stringsHasPrefix s "--"))

/-- The log entries of statements that all succeeded. -/
def execEvents (stmts : List String) : List Event :=
  stmts.map (fun s => Event.exec s true)

/-! ## A small concrete environment -/

/-- A database whose user schema is the list of the statements applied to it; the statement
`FAIL` is rejected. -/
def demoExec (statement : String) (d : List String) : Except String (List String) :=
  if statement == "FAIL" then .error "pq: syntax error" else .ok (d ++ [statement])

/-- The files of the example directory. -/
def demoFiles : List (String × String) :=
  [ ("migrations/0001_y.sql", "CREATE TABLE y (id int);\n-- seed\n;INSERT INTO y VALUES (1);\n"),
    ("migrations/0002_x.sql", "-- comment\n;\n   ;\n"),
    ("migrations/0003_z.sql",
      "CREATE TABLE z (id int); INSERT INTO z VALUES (1); FAIL; DROP TABLE z"),
    ("broken/0001_a.sql", "CREATE TABLE a (id int);"),
    ("broken/0002_b.sql", "CREATE TABLE b (id int); FAIL;"),
    ("broken/0003_c.sql", "CREATE TABLE c (id int);") ]

/-- An environment for examples: two script directories, a stand-in for the digest. -/
def demoEnv : Env (List String) where
  filepathJoin := fun dir name =>
    (if stringsHasPrefix dir "./" then String.mk (dir.data.drop 2) else dir) ++ "/" ++ name
  md5Hex := fun content => "md5(" ++ content ++ ")"
  readDir := fun dir =>
    if dir == "./migrations" || dir == "migrations" then
      .ok [⟨"0002_x.sql", 19, false⟩, ⟨"0001_y.sql", 60, false⟩]
    else if dir == "broken" then
      .ok [⟨"0003_c.sql", 24, false⟩, ⟨"0001_a.sql", 24, false⟩, ⟨"0002_b.sql", 30, false⟩]
    else .error ("open " ++ dir ++ ": no such file or directory")
  readFile := fun path =>
    match demoFiles.find? (fun kv => kv.1 == path) with
    | some kv => .ok kv.2
    | none => .error ("open " ++ path ++ ": no such file or directory")
  execSQL := demoExec

/-- An empty database. -/
def demoDb : Database (List String) := ⟨[], []⟩

/-- A history for examples: a script applied, a script failing at a statement, the first
script again, a script whose commit fails, and that script once more. -/
def demoCalls : List (Call (List String)) :=
  [ ⟨demoEnv, Faults.none, ⟨"migrations", "0001_y.sql"⟩⟩,
    ⟨demoEnv, Faults.none, ⟨"migrations", "0003_z.sql"⟩⟩,
    ⟨demoEnv, Faults.none, ⟨"migrations", "0001_y.sql"⟩⟩,
    ⟨demoEnv, ⟨none, none, none, some "driver: bad connection"⟩, ⟨"migrations", "0002_x.sql"⟩⟩,
    ⟨demoEnv, Faults.none, ⟨"migrations", "0002_x.sql"⟩⟩ ]

/-! ## The splitter -/

theorem splitChars_ne_nil (sep : Char) (l : List Char) : splitChars sep l ≠ [] := by
  induction l with
  | nil => simp [splitChars]
  | cons c cs ih =>
    unfold splitChars
    split
    · simp
    · split <;> simp

theorem not_mem_of_mem_splitChars (sep : Char) (l seg : List Char)
    (h : seg ∈ splitChars sep l) : sep ∉ seg := by
  induction l generalizing seg with
  | nil =>
    simp [splitChars] at h
    simp [h]
  | cons c cs ih =>
    unfold splitChars at h
    split at h
    · rcases List.mem_cons.1 h with h1 | h1
      · simp [h1]
      · exact ih seg h1
    · rename_i hc
      split at h
      · simp at h
        simp [h]
        exact fun h2 => hc h2.symm
      · rename_i s0 segs heq
        rcases List.mem_cons.1 h with h1 | h1
        · have h0 : sep ∉ s0 := ih s0 (by rw [heq]; exact List.mem_cons_self _ _)
          rw [h1]
          intro hm
          rcases List.mem_cons.1 hm with h2 | h2
          · exact hc h2.symm
          · exact h0 h2
        · exact ih seg (by rw [heq]; exact List.mem_cons_of_mem _ h1)

theorem dropTrailing_initial (p : Char → Bool) (l : List Char) : dropTrailing p l <+: l := by
  unfold dropTrailing
  have h := List.dropWhile_suffix (l := l.reverse) p
  have h2 := List.reverse_prefix.2 h
  simpa using h2

theorem dropTrailing_getLast (p : Char → Bool) (l : List Char) (c : Char)
    (h : (dropTrailing p l).getLast? = some c) : p c = false := by
  unfold dropTrailing at h
  rw [List.getLast?_reverse] at h
  have h2 := List.head?_dropWhile_not p l.reverse
  rw [h] at h2
  exact h2

theorem trim_head (l : List Char) (c : Char)
    (h : (dropTrailing isSpace (l.dropWhile isSpace)).head? = some c) : isSpace c = false := by
  have hp := dropTrailing_initial isSpace (l.dropWhile isSpace)
  have h2 := List.head?_dropWhile_not isSpace l
  obtain ⟨t, ht⟩ := hp
  cases hd : dropTrailing isSpace (l.dropWhile isSpace) with
  | nil => rw [hd] at h; simp at h
  | cons x xs =>
    rw [hd] at h ht
    simp at h
    rw [← ht] at h2
    simp at h2
    rw [← h]
    exact h2

theorem trim_mem (l : List Char) (c : Char)
    (h : c ∈ dropTrailing isSpace (l.dropWhile isSpace)) : c ∈ l :=
  (List.dropWhile_sublist isSpace).subset ((dropTrailing_initial isSpace _).subset h)

/-- Every kept statement is a trimmed segment: not empty, without white space at either end,
without the comment marker at its start, and made of characters of its segment. -/
theorem keptStatements_spec (segments : List String) (s : String)
    (h : s ∈ keptStatements segments) :
    s ≠ "" ∧ (∀ c, s.data.head? = some c → isSpace c = false)
      ∧ (∀ c, s.data.getLast? = some c → isSpace c = false)
      ∧ stringsHasPrefix s "--" = false
      ∧ ∃ seg ∈ segments, s = stringsTrimSpace seg ∧ ∀ c ∈ s.data, c ∈ seg.data := by
  unfold keptStatements at h
  rw [List.mem_filter] at h
  obtain ⟨hm, hk⟩ := h
  obtain ⟨seg, hseg, rfl⟩ := List.mem_map.1 hm
  simp only [Bool.not_eq_true', Bool.or_eq_false_iff, beq_eq_false_iff_ne] at hk
  refine ⟨hk.1, ?_, ?_, hk.2, seg, hseg, rfl, ?_⟩
  · intro c hc
    exact trim_head seg.data c hc
  · intro c hc
    exact dropTrailing_getLast isSpace _ c hc
  · intro c hc
    exact trim_mem seg.data c hc

theorem executeLoop_eq_execStmts {D : Type} (env : Env D) (segments : List String) (tx : Tx D) :
    executeLoop env tx segments = execStmts env tx (keptStatements segments) := by
  induction segments generalizing tx with
  | nil => rfl
  | cons seg rest ih =>
    unfold executeLoop
    by_cases hk : (stringsTrimSpace seg == "" || stringsHasPrefix (stringsTrimSpace seg) "--") = true
    · have : keptStatements (seg :: rest) = keptStatements rest := by
        simp [keptStatements, List.filter, hk]
      simp only [hk, if_true, this]
      exact ih tx
    · have : keptStatements (seg :: rest) = stringsTrimSpace seg :: keptStatements rest := by
        simp [keptStatements, List.filter, hk]
      simp only [hk, this, execStmts]
      cases hx : tx.execContext env (stringsTrimSpace seg) with
      | mk e tx1 =>
        cases e with
        | some err => simp
        | none => simpa using ih tx1

theorem executeCommands_eq {D : Type} (env : Env D) (tx : Tx D) (content : String) :
    executeCommands env tx content = execStmts env tx (splitStatements content) :=
  executeLoop_eq_execStmts env (stringsSplit content ';') tx

/-! ## Executing the statements of a script -/

theorem execStmts_ok {D : Type} (env : Env D) (stmts : List String) (tx : Tx D) (d : D)
    (h : execAll env stmts tx.work.data = .ok d) :
    execStmts env tx stmts =
      (none, ⟨tx.committed, ⟨d, tx.work.executed_scripts⟩, tx.log ++ execEvents stmts⟩) := by
  induction stmts generalizing tx with
  | nil =>
    simp only [execAll, Except.ok.injEq] at h
    subst h
    simp [execStmts, execEvents]
  | cons s rest ih =>
    simp only [execAll] at h
    cases hx : env.execSQL s tx.work.data with
    | error e => rw [hx] at h; simp at h
    | ok d1 =>
      rw [hx] at h
      simp only [execStmts, Tx.execContext, hx]
      rw [ih _ h]
      simp [execEvents]

theorem execStmts_fail {D : Type} (env : Env D) (pre : List String) (s : String)
    (post : List String) (tx : Tx D) (d : D) (e : String)
    (hpre : execAll env pre tx.work.data = .ok d) (hs : env.execSQL s d = .error e) :
    execStmts env tx (pre ++ s :: post) =
      (some e, ⟨tx.committed, ⟨d, tx.work.executed_scripts⟩,
        tx.log ++ execEvents pre ++ [Event.exec s false]⟩) := by
  induction pre generalizing tx with
  | nil =>
    simp only [execAll, Except.ok.injEq] at hpre
    subst hpre
    simp [execStmts, Tx.execContext, hs, execEvents]
  | cons p rest ih =>
    simp only [execAll] at hpre
    cases hx : env.execSQL p tx.work.data with
    | error e1 => rw [hx] at hpre; simp at hpre
    | ok d1 =>
      rw [hx] at hpre
      have h1 := ih ⟨tx.committed, ⟨d1, tx.work.executed_scripts⟩,
        tx.log ++ [Event.exec p true]⟩ hpre
      simp only [List.cons_append, execStmts, Tx.execContext, hx]
      refine Eq.trans h1 ?_
      simp [execEvents]

/-- Executing a list of statements either succeeds throughout or fails at a first statement. -/
theorem execAll_cases {D : Type} (env : Env D) (stmts : List String) (d : D) :
    (∃ d1, execAll env stmts d = .ok d1) ∨
    (∃ pre s post d1 e, stmts = pre ++ s :: post ∧ execAll env pre d = .ok d1
      ∧ env.execSQL s d1 = .error e ∧ execAll env stmts d = .error e) := by
  induction stmts generalizing d with
  | nil => exact Or.inl ⟨d, rfl⟩
  | cons s rest ih =>
    cases hx : env.execSQL s d with
    | error e =>
      exact Or.inr ⟨[], s, rest, d, e, rfl, rfl, hx, by simp [execAll, hx]⟩
    | ok d1 =>
      rcases ih d1 with ⟨d2, h2⟩ | ⟨pre, s1, post, d2, e, h1, h2, h3, h4⟩
      · exact Or.inl ⟨d2, by simp [execAll, hx, h2]⟩
      · exact Or.inr ⟨s :: pre, s1, post, d2, e, by simp [h1], by simp [execAll, hx, h2], h3,
          by simp [execAll, hx, h4]⟩

theorem execStmts_none {D : Type} (env : Env D) (stmts : List String) (tx : Tx D)
    (h : (execStmts env tx stmts).1 = none) :
    ∃ d, execAll env stmts tx.work.data = .ok d := by
  rcases execAll_cases env stmts tx.work.data with ⟨d, hd⟩ | ⟨pre, s, post, d, e, h1, h2, h3, _⟩
  · exact ⟨d, hd⟩
  · rw [h1, execStmts_fail env pre s post tx d e h2 h3] at h
    simp at h

theorem executedStatements_append (a b : List Event) :
    executedStatements (a ++ b) = executedStatements a ++ executedStatements b := by
  simp [executedStatements, List.filterMap_append]

theorem executedStatements_execEvents (stmts : List String) :
    executedStatements (execEvents stmts) = stmts := by
  induction stmts with
  | nil => rfl
  | cons s rest ih =>
    simp only [execEvents, List.map_cons] at ih ⊢
    simp only [executedStatements, List.filterMap_cons] at ih ⊢
    rw [ih]

/-! ## The order of file names and the sort -/

theorem char_eq_of_toNat_eq (a b : Char) (h : a.toNat = b.toNat) : a = b := by
  apply Char.ext
  apply UInt32.ext
  exact h

theorem utf8Bytes_append_inj (x y : Char) (r r1 : List Nat)
    (h : utf8Bytes x ++ r = utf8Bytes y ++ r1) : x = y ∧ r = r1 := by
  unfold utf8Bytes at h
  split_ifs at h <;>
    simp only [List.cons_append, List.nil_append, List.cons.injEq] at h <;>
    first
    | (exfalso; omega)
    | exact ⟨char_eq_of_toNat_eq x y (by omega), by simp [h]⟩

/-- Different texts have different bytes. -/
theorem bytesOf_inj (a b : List Char) (h : bytesOf a = bytesOf b) : a = b := by
  induction a generalizing b with
  | nil =>
    cases b with
    | nil => rfl
    | cons y ys =>
      exfalso
      simp only [bytesOf, utf8Bytes] at h
      split_ifs at h <;> simp at h
  | cons x xs ih =>
    cases b with
    | nil =>
      exfalso
      simp only [bytesOf, utf8Bytes] at h
      split_ifs at h <;> simp at h
    | cons y ys =>
      simp only [bytesOf] at h
      obtain ⟨h1, h2⟩ := utf8Bytes_append_inj x y _ _ h
      rw [h1, ih ys h2]

theorem lessBytes_asymm (a b : List Nat) (h : lessBytes a b = true) :
    lessBytes b a = false := by
  induction a generalizing b with
  | nil => cases b <;> simp [lessBytes] at h ⊢
  | cons x xs ih =>
    cases b with
    | nil => simp [lessBytes] at h
    | cons y ys =>
      simp only [lessBytes] at h ⊢
      split_ifs at h ⊢
      all_goals first | omega | rfl | exact ih ys h

theorem lessBytes_negTrans (a b c : List Nat) (h1 : lessBytes a b = false)
    (h2 : lessBytes b c = false) : lessBytes a c = false := by
  induction a generalizing b c with
  | nil =>
    cases b with
    | nil => exact h2
    | cons y ys => simp [lessBytes] at h1
  | cons x xs ih =>
    cases c with
    | nil => simp [lessBytes]
    | cons z zs =>
      cases b with
      | nil => simp [lessBytes] at h2
      | cons y ys =>
        simp only [lessBytes] at h1 h2 ⊢
        split_ifs at h1 h2 ⊢
        all_goals first | omega | rfl | exact ih ys zs h1 h2

theorem lessBytes_total (a b : List Nat) (h1 : lessBytes a b = false)
    (h2 : lessBytes b a = false) : a = b := by
  induction a generalizing b with
  | nil =>
    cases b with
    | nil => rfl
    | cons y ys => simp [lessBytes] at h1
  | cons x xs ih =>
    cases b with
    | nil => simp [lessBytes] at h2
    | cons y ys =>
      simp only [lessBytes] at h1 h2
      split_ifs at h1 h2
      have hxy : x = y := by omega
      rw [hxy, ih ys h1 h2]

theorem insertBack_perm (x : FileInfo) (l : List FileInfo) :
    (insertBack x l).Perm (x :: l) := by
  induction l with
  | nil => exact List.Perm.refl _
  | cons y ys ih =>
    unfold insertBack
    split
    · exact ((List.Perm.cons y ih).trans (List.Perm.swap x y ys))
    · exact List.Perm.refl _

theorem insertBack_descending (x : FileInfo) (l : List FileInfo)
    (h : l.Pairwise (fun a b => nameLE b a)) :
    (insertBack x l).Pairwise (fun a b => nameLE b a) := by
  induction l with
  | nil => simp [insertBack]
  | cons y ys ih =>
    rw [List.pairwise_cons] at h
    unfold insertBack
    split
    · rename_i hlt
      rw [List.pairwise_cons]
      refine ⟨?_, ih h.2⟩
      intro b hb
      rcases List.mem_cons.1 ((insertBack_perm x ys).subset hb) with rfl | hb
      · exact lessBytes_asymm _ _ hlt
      · exact h.1 b hb
    · rename_i hlt
      have hxy : nameLE y x := by simpa [nameLE] using hlt
      rw [List.pairwise_cons]
      refine ⟨?_, List.pairwise_cons.2 h⟩
      intro b hb
      rcases List.mem_cons.1 hb with rfl | hb
      · exact hxy
      · exact lessBytes_negTrans _ _ _ hxy (h.1 b hb)

theorem foldl_insertBack (l acc : List FileInfo) (h : acc.Pairwise (fun a b => nameLE b a)) :
    (l.foldl (fun sorted x => insertBack x sorted) acc).Pairwise (fun a b => nameLE b a)
    ∧ (l.foldl (fun sorted x => insertBack x sorted) acc).Perm (acc ++ l) := by
  induction l generalizing acc with
  | nil => simpa using h
  | cons x xs ih =>
    obtain ⟨h1, h2⟩ := ih (insertBack x acc) (insertBack_descending x acc h)
    refine ⟨h1, h2.trans ?_⟩
    refine ((insertBack_perm x acc).append_right xs).trans ?_
    simp
    exact (List.perm_middle).symm

theorem sortSlice_perm (l : List FileInfo) : (sortSlice l).Perm l := by
  have h := (foldl_insertBack l [] List.Pairwise.nil).2
  exact (List.reverse_perm _).trans (by simpa using h)

theorem sortSlice_sorted (l : List FileInfo) : (sortSlice l).Pairwise nameLE := by
  have h := (foldl_insertBack l [] List.Pairwise.nil).1
  unfold sortSlice
  rw [List.pairwise_reverse]
  exact h

/-- Two listings of the same entries, both ascending by name, are the same list when the names
are pairwise distinct. -/
theorem sorted_unique (l1 l2 : List FileInfo) (hp : l1.Perm l2)
    (hn : (l1.map FileInfo.name).Nodup)
    (h1 : l1.Pairwise nameLE) (h2 : l2.Pairwise nameLE) : l1 = l2 := by
  induction l1 generalizing l2 with
  | nil => exact (List.Perm.nil_eq hp)
  | cons a as ih =>
    cases l2 with
    | nil => exact absurd hp.length_eq (by simp)
    | cons b bs =>
      rw [List.pairwise_cons] at h1 h2
      rw [List.map_cons, List.nodup_cons] at hn
      have hab : a = b := by
        have ha : a ∈ b :: bs := hp.subset (List.mem_cons_self _ _)
        have hb : b ∈ a :: as := hp.symm.subset (List.mem_cons_self _ _)
        rcases List.mem_cons.1 ha with h | ha
        · exact h
        rcases List.mem_cons.1 hb with h | hb
        · exact h.symm
        have e1 := h1.1 b hb
        have e2 := h2.1 a ha
        have : a.name = b.name := String.ext (bytesOf_inj _ _ (lessBytes_total _ _ e2 e1))
        exact absurd (by rw [this]; exact List.mem_map_of_mem _ hb) hn.1
      subst hab
      rw [ih bs (List.Perm.cons_inv hp) hn.2 h1.2 h2.2]

theorem sortScripts_eq_of_perm (l1 l2 : List FileInfo) (hp : l1.Perm l2)
    (hn : (l2.map FileInfo.name).Nodup) : sortScripts l1 = sortScripts l2 := by
  have p1 := sortSlice_perm l1
  have p2 := sortSlice_perm l2
  have hn1 : ((sortSlice l1).map FileInfo.name).Nodup :=
    (((p1.trans hp).map FileInfo.name).nodup_iff).2 hn
  exact sorted_unique _ _ (p1.trans (hp.trans p2.symm)) hn1 (sortSlice_sorted l1)
    (sortSlice_sorted l2)

/-! ## The paths through `runScript` -/

theorem runScript_readError {D : Type} (env : Env D) (f : Faults) (db : Database D)
    (src : scriptSource) (err : String) (hread : env.readFile (src.join env) = .error err) :
    runScript env f db src = ⟨some err, db, []⟩ := by
  simp [runScript, hread]

theorem runScript_beginError {D : Type} (env : Env D) (f : Faults) (db : Database D)
    (src : scriptSource) (content err : String)
    (hread : env.readFile (src.join env) = .ok content) (hbegin : f.beginTx = some err) :
    runScript env f db src
      = ⟨some (failMessage (src.join env) err), db, [Event.beginTx false]⟩ := by
  simp [runScript, hread, beginTx, hbegin]

theorem runScript_queryError {D : Type} (env : Env D) (f : Faults) (db : Database D)
    (src : scriptSource) (content err : String)
    (hread : env.readFile (src.join env) = .ok content) (hbegin : f.beginTx = none)
    (hquery : f.query = some err) :
    runScript env f db src
      = ⟨some (failMessage (src.join env) err), db,
          [Event.beginTx true, Event.query (src.join env), Event.rollback]⟩ := by
  simp [runScript, hread, beginTx, hbegin, runScriptTx, isScriptExecuted, Tx.queryChecksum,
    hquery, Tx.rollback]

theorem runScript_skip {D : Type} (env : Env D) (f : Faults) (db : Database D)
    (src : scriptSource) (content : String)
    (hread : env.readFile (src.join env) = .ok content) (hbegin : f.beginTx = none)
    (hquery : f.query = none)
    (hrow : lookup db.executed_scripts (src.join env) = some (calculateChecksum env content)) :
    runScript env f db src
      = ⟨none, db, [Event.beginTx true, Event.query (src.join env), Event.rollback]⟩ := by
  simp [runScript, hread, beginTx, hbegin, runScriptTx, isScriptExecuted, Tx.queryChecksum,
    hquery, hrow, Tx.rollback]

theorem runScript_mismatch {D : Type} (env : Env D) (f : Faults) (db : Database D)
    (src : scriptSource) (content stored : String)
    (hread : env.readFile (src.join env) = .ok content) (hbegin : f.beginTx = none)
    (hquery : f.query = none)
    (hrow : lookup db.executed_scripts (src.join env) = some stored)
    (hne : stored ≠ calculateChecksum env content) :
    runScript env f db src
      = ⟨some (failMessage (src.join env)
            ("invalid checksum for migration '" ++ src.join env ++ "' ("
              ++ calculateChecksum env content ++ " != " ++ stored ++ ")")), db,
          [Event.beginTx true, Event.query (src.join env), Event.rollback]⟩ := by
  simp [runScript, hread, beginTx, hbegin, runScriptTx, isScriptExecuted, Tx.queryChecksum,
    hquery, hrow, hne, Tx.rollback]

theorem runScript_statementError {D : Type} (env : Env D) (f : Faults) (db : Database D)
    (src : scriptSource) (content : String) (pre : List String) (s : String)
    (post : List String) (d : D) (err : String)
    (hread : env.readFile (src.join env) = .ok content) (hbegin : f.beginTx = none)
    (hquery : f.query = none) (hrow : lookup db.executed_scripts (src.join env) = none)
    (hsplit : splitStatements content = pre ++ s :: post)
    (hpre : execAll env pre db.data = .ok d) (hs : env.execSQL s d = .error err) :
    runScript env f db src
      = ⟨some (failMessage (src.join env) err), db,
          [Event.beginTx true, Event.query (src.join env)] ++ execEvents pre
            ++ [Event.exec s false, Event.rollback]⟩ := by
  have hx := execStmts_fail env pre s post
    ⟨db, db, [Event.beginTx true, Event.query (src.join env)]⟩ d err hpre hs
  simp [runScript, hread, beginTx, hbegin, runScriptTx, isScriptExecuted, Tx.queryChecksum,
    hquery, hrow, executeCommands_eq, hsplit, hx, Tx.rollback]

theorem runScript_insertError {D : Type} (env : Env D) (f : Faults) (db : Database D)
    (src : scriptSource) (content : String) (d : D) (err : String)
    (hread : env.readFile (src.join env) = .ok content) (hbegin : f.beginTx = none)
    (hquery : f.query = none) (hrow : lookup db.executed_scripts (src.join env) = none)
    (hexec : execAll env (splitStatements content) db.data = .ok d)
    (hinsert : f.insert = some err) :
    runScript env f db src
      = ⟨some (failMessage (src.join env) err), db,
          [Event.beginTx true, Event.query (src.join env)]
            ++ execEvents (splitStatements content)
            ++ [Event.insert (src.join env) (calculateChecksum env content) false,
                Event.rollback]⟩ := by
  have hx := execStmts_ok env (splitStatements content)
    ⟨db, db, [Event.beginTx true, Event.query (src.join env)]⟩ d hexec
  simp [runScript, hread, beginTx, hbegin, runScriptTx, isScriptExecuted, Tx.queryChecksum,
    hquery, hrow, executeCommands_eq, hx, saveScriptChecksum, Tx.insertLedger, hinsert,
    Tx.rollback]

theorem runScript_commitError {D : Type} (env : Env D) (f : Faults) (db : Database D)
    (src : scriptSource) (content : String) (d : D) (err : String)
    (hread : env.readFile (src.join env) = .ok content) (hbegin : f.beginTx = none)
    (hquery : f.query = none) (hrow : lookup db.executed_scripts (src.join env) = none)
    (hexec : execAll env (splitStatements content) db.data = .ok d)
    (hinsert : f.insert = none) (hcommit : f.commit = some err) :
    runScript env f db src
      = ⟨some (failMessage (src.join env) err), db,
          [Event.beginTx true, Event.query (src.join env)]
            ++ execEvents (splitStatements content)
            ++ [Event.insert (src.join env) (calculateChecksum env content) true,
                Event.commit false, Event.rollback]⟩ := by
  have hx := execStmts_ok env (splitStatements content)
    ⟨db, db, [Event.beginTx true, Event.query (src.join env)]⟩ d hexec
  simp [runScript, hread, beginTx, hbegin, runScriptTx, isScriptExecuted, Tx.queryChecksum,
    hquery, hrow, executeCommands_eq, hx, saveScriptChecksum, Tx.insertLedger, hinsert,
    Tx.commit, hcommit, Tx.rollback]

theorem runScript_applied {D : Type} (env : Env D) (f : Faults) (db : Database D)
    (src : scriptSource) (content : String) (d : D)
    (hread : env.readFile (src.join env) = .ok content) (hbegin : f.beginTx = none)
    (hquery : f.query = none) (hrow : lookup db.executed_scripts (src.join env) = none)
    (hexec : execAll env (splitStatements content) db.data = .ok d)
    (hinsert : f.insert = none) (hcommit : f.commit = none) :
    runScript env f db src
      = ⟨none,
          ⟨d, db.executed_scripts ++ [⟨src.join env, calculateChecksum env content⟩]⟩,
          [Event.beginTx true, Event.query (src.join env)]
            ++ execEvents (splitStatements content)
            ++ [Event.insert (src.join env) (calculateChecksum env content) true,
                Event.commit true, Event.rollback]⟩ := by
  have hx := execStmts_ok env (splitStatements content)
    ⟨db, db, [Event.beginTx true, Event.query (src.join env)]⟩ d hexec
  simp [runScript, hread, beginTx, hbegin, runScriptTx, isScriptExecuted, Tx.queryChecksum,
    hquery, hrow, executeCommands_eq, hx, saveScriptChecksum, Tx.insertLedger, hinsert,
    Tx.commit, hcommit, Tx.rollback]

theorem lookup_eq_none_iff (ledger : List LedgerEntry) (script_name : String) :
    lookup ledger script_name = none ↔ ∀ e ∈ ledger, e.script_name ≠ script_name := by
  simp [lookup, List.find?_eq_none]

theorem keptStatements_eq_nil (segments : List String)
    (h : ∀ seg ∈ segments, stringsTrimSpace seg = ""
      ∨ stringsHasPrefix (stringsTrimSpace seg) "--" = true) :
    keptStatements segments = [] := by
  unfold keptStatements
  rw [List.filter_eq_nil_iff]
  intro s hs
  obtain ⟨seg, hseg, rfl⟩ := List.mem_map.1 hs
  rcases h seg hseg with h1 | h1
  · simp [h1]
  · simp [h1]

/-- Every call of `runScript` fails without committing, skips, or applies and records. -/
theorem runScript_cases {D : Type} (env : Env D) (f : Faults) (db : Database D)
    (src : scriptSource) :
    (∃ e, (runScript env f db src).err = some e ∧ (runScript env f db src).db = db
        ∧ Event.commit true ∉ (runScript env f db src).events)
    ∨ (∃ content, env.readFile (src.join env) = .ok content
        ∧ lookup db.executed_scripts (src.join env) = some (calculateChecksum env content)
        ∧ runScript env f db src
          = ⟨none, db, [Event.beginTx true, Event.query (src.join env), Event.rollback]⟩)
    ∨ (∃ content d, env.readFile (src.join env) = .ok content
        ∧ lookup db.executed_scripts (src.join env) = none
        ∧ execAll env (splitStatements content) db.data = .ok d
        ∧ runScript env f db src
          = ⟨none,
              ⟨d, db.executed_scripts ++ [⟨src.join env, calculateChecksum env content⟩]⟩,
              [Event.beginTx true, Event.query (src.join env)]
                ++ execEvents (splitStatements content)
                ++ [Event.insert (src.join env) (calculateChecksum env content) true,
                    Event.commit true, Event.rollback]⟩) := by
  cases hread : env.readFile (src.join env) with
  | error err =>
    left
    rw [runScript_readError env f db src err hread]
    exact ⟨err, rfl, rfl, by simp⟩
  | ok content =>
  cases hbegin : f.beginTx with
  | some err =>
    left
    rw [runScript_beginError env f db src content err hread hbegin]
    exact ⟨_, rfl, rfl, by simp⟩
  | none =>
  cases hquery : f.query with
  | some err =>
    left
    rw [runScript_queryError env f db src content err hread hbegin hquery]
    exact ⟨_, rfl, rfl, by simp⟩
  | none =>
  cases hrow : lookup db.executed_scripts (src.join env) with
  | some stored =>
    by_cases hne : stored = calculateChecksum env content
    · right
      left
      subst hne
      exact ⟨content, rfl, rfl, runScript_skip env f db src content hread hbegin hquery hrow⟩
    · left
      rw [runScript_mismatch env f db src content stored hread hbegin hquery hrow hne]
      exact ⟨_, rfl, rfl, by simp⟩
  | none =>
  rcases execAll_cases env (splitStatements content) db.data with
    ⟨d, hexec⟩ | ⟨pre, s, post, d, e, hsplit, hpre, hs, _⟩
  · cases hinsert : f.insert with
    | some err =>
      left
      rw [runScript_insertError env f db src content d err hread hbegin hquery hrow hexec
        hinsert]
      exact ⟨_, rfl, rfl, by simp [execEvents]⟩
    | none =>
    cases hcommit : f.commit with
    | some err =>
      left
      rw [runScript_commitError env f db src content d err hread hbegin hquery hrow hexec
        hinsert hcommit]
      exact ⟨_, rfl, rfl, by simp [execEvents]⟩
    | none =>
      right
      right
      exact ⟨content, d, rfl, rfl, hexec,
        runScript_applied env f db src content d hread hbegin hquery hrow hexec hinsert hcommit⟩
  · left
    rw [runScript_statementError env f db src content pre s post d e hread hbegin hquery hrow
      hsplit hpre hs]
    exact ⟨_, rfl, rfl, by simp [execEvents]⟩

/-- A failing call of `runScript` leaves the committed database as it was. -/
theorem runScript_failed_db {D : Type} (env : Env D) (f : Faults) (db : Database D)
    (src : scriptSource) (e : String) (h : (runScript env f db src).err = some e) :
    (runScript env f db src).db = db := by
  rcases runScript_cases env f db src with ⟨_, _, h2, _⟩ | ⟨_, _, _, h2⟩ | ⟨_, _, _, _, _, h2⟩
  · exact h2
  · rw [h2] at h; simp at h
  · rw [h2] at h; simp at h

/-! ## The loop of `runScripts` -/

theorem runAll_length {D : Type} (env : Env D) (scriptDir : String) (scripts : List FileInfo)
    (faults : Nat → Faults) (db : Database D) :
    (runAll env scriptDir faults db scripts).length = scripts.length := by
  induction scripts generalizing faults db with
  | nil => rfl
  | cons s rest ih => simp [runAll, ih]

theorem runLoop_all_ok {D : Type} (env : Env D) (scriptDir : String) (scripts : List FileInfo)
    (faults : Nat → Faults) (db : Database D)
    (h : ∀ r ∈ runAll env scriptDir faults db scripts, r.err = none) :
    runLoop env scriptDir faults db scripts
      = ⟨none, dbAfter db (runAll env scriptDir faults db scripts),
          allEvents (runAll env scriptDir faults db scripts)⟩ := by
  induction scripts generalizing faults db with
  | nil => rfl
  | cons s rest ih =>
    simp only [runAll, List.mem_cons, forall_eq_or_imp] at h
    simp only [runLoop, h.1, runAll, dbAfter, allEvents]
    rw [ih _ _ h.2]

theorem runLoop_first_failure {D : Type} (env : Env D) (scriptDir : String)
    (pre : List FileInfo) (s : FileInfo) (post : List FileInfo)
    (faults : Nat → Faults) (db : Database D) (e : String)
    (hpre : ∀ r ∈ runAll env scriptDir faults db pre, r.err = none)
    (hs : (runScript env (faults pre.length) (dbAfter db (runAll env scriptDir faults db pre))
        ⟨scriptDir, s.name⟩).err = some e) :
    runLoop env scriptDir faults db (pre ++ s :: post)
      = ⟨some e, dbAfter db (runAll env scriptDir faults db pre),
          allEvents (runAll env scriptDir faults db pre)
            ++ (runScript env (faults pre.length)
                (dbAfter db (runAll env scriptDir faults db pre)) ⟨scriptDir, s.name⟩).events⟩ := by
  induction pre generalizing faults db with
  | nil =>
    simp only [runAll, dbAfter, List.length_nil] at hs
    simp only [List.nil_append, runLoop, hs, runAll, dbAfter, allEvents, List.length_nil]
    rw [runScript_failed_db env (faults 0) db ⟨scriptDir, s.name⟩ e hs]
  | cons p rest ih =>
    simp only [runAll, List.mem_cons, forall_eq_or_imp] at hpre
    simp only [runAll, dbAfter, List.length_cons] at hs
    have h1 := ih (fun i => faults (i + 1)) _ hpre.2 hs
    rw [show (p :: rest) ++ s :: post = p :: (rest ++ s :: post) from rfl]
    simp only [runLoop, hpre.1, runAll, dbAfter, allEvents, List.length_cons]
    rw [h1]
    simp

/-! ## The ledger across calls -/

theorem lookup_append_of_some (l l1 : List LedgerEntry) (n c : String)
    (h : lookup l n = some c) : lookup (l ++ l1) n = some c := by
  unfold lookup at h ⊢
  rw [List.find?_append]
  cases hf : l.find? (fun e => e.script_name == n) with
  | none => rw [hf] at h; simp at h
  | some e => rw [hf] at h; simpa using h

theorem lookup_append_new (l : List LedgerEntry) (n c : String) (h : lookup l n = none) :
    lookup (l ++ [⟨n, c⟩]) n = some c := by
  unfold lookup at h ⊢
  rw [List.find?_append]
  cases hf : l.find? (fun e => e.script_name == n) with
  | none => simp
  | some e => rw [hf] at h; simp at h

/-- A call of `runScript` keeps every checksum the ledger holds. -/
theorem runScript_lookup_mono {D : Type} (env : Env D) (f : Faults) (db : Database D)
    (src : scriptSource) (n c : String) (h : lookup db.executed_scripts n = some c) :
    lookup (runScript env f db src).db.executed_scripts n = some c := by
  rcases runScript_cases env f db src with ⟨_, _, h2, _⟩ | ⟨_, _, _, h2⟩ | ⟨_, _, _, _, _, h2⟩
  · rw [h2]; exact h
  · rw [h2]; exact h
  · rw [h2]; exact lookup_append_of_some _ _ _ _ h

/-- After a successful call the ledger holds the checksum of the content that was read. -/
theorem runScript_ok_recorded {D : Type} (env : Env D) (f : Faults) (db : Database D)
    (src : scriptSource) (h : (runScript env f db src).err = none) :
    ∃ content, env.readFile (src.join env) = .ok content
      ∧ lookup (runScript env f db src).db.executed_scripts (src.join env)
        = some (calculateChecksum env content) := by
  rcases runScript_cases env f db src with
    ⟨_, h1, _, _⟩ | ⟨content, h1, h2, h3⟩ | ⟨content, _, h1, h2, _, h3⟩
  · rw [h1] at h; simp at h
  · exact ⟨content, h1, by rw [h3]; exact h2⟩
  · exact ⟨content, h1, by rw [h3]; exact lookup_append_new _ _ _ h2⟩

theorem runLoop_lookup_mono {D : Type} (env : Env D) (scriptDir : String)
    (scripts : List FileInfo) (faults : Nat → Faults) (db : Database D) (n c : String)
    (h : lookup db.executed_scripts n = some c) :
    lookup (runLoop env scriptDir faults db scripts).db.executed_scripts n = some c := by
  induction scripts generalizing faults db with
  | nil => exact h
  | cons s rest ih =>
    have h1 := runScript_lookup_mono env (faults 0) db ⟨scriptDir, s.name⟩ n c h
    unfold runLoop
    cases he : (runScript env (faults 0) db ⟨scriptDir, s.name⟩).err with
    | some e => simpa [he] using h1
    | none => simpa [he] using ih (fun i => faults (i + 1)) _ h1

/-- After a successful run the ledger holds, for every script, the checksum of its content. -/
theorem runLoop_ok_recorded {D : Type} (env : Env D) (scriptDir : String)
    (scripts : List FileInfo) (faults : Nat → Faults) (db : Database D)
    (h : (runLoop env scriptDir faults db scripts).err = none) :
    ∀ s ∈ scripts, ∃ content,
      env.readFile (scriptSource.join env ⟨scriptDir, s.name⟩) = .ok content
      ∧ lookup (runLoop env scriptDir faults db scripts).db.executed_scripts
          (scriptSource.join env ⟨scriptDir, s.name⟩) = some (calculateChecksum env content) := by
  induction scripts generalizing faults db with
  | nil => intro s hs; cases hs
  | cons p rest ih =>
    unfold runLoop at h ⊢
    cases he : (runScript env (faults 0) db ⟨scriptDir, p.name⟩).err with
    | some e => simp [he] at h
    | none =>
      simp only [he] at h ⊢
      intro s hs
      rcases List.mem_cons.1 hs with rfl | hs
      · obtain ⟨content, h1, h2⟩ := runScript_ok_recorded env (faults 0) db ⟨scriptDir, s.name⟩ he
        exact ⟨content, h1, runLoop_lookup_mono env scriptDir rest _ _ _ _ h2⟩
      · exact ih (fun i => faults (i + 1)) _ h s hs

/-- A run over scripts that are all recorded with their current checksum skips every one. -/
theorem runLoop_all_skip {D : Type} (env : Env D) (scriptDir : String)
    (scripts : List FileInfo) (faults : Nat → Faults) (db : Database D)
    (hdb : ∀ i, (faults i).beginTx = none ∧ (faults i).query = none)
    (h : ∀ s ∈ scripts, ∃ content,
      env.readFile (scriptSource.join env ⟨scriptDir, s.name⟩) = .ok content
      ∧ lookup db.executed_scripts (scriptSource.join env ⟨scriptDir, s.name⟩)
        = some (calculateChecksum env content)) :
    runLoop env scriptDir faults db scripts = ⟨none, db, skipEvents env scriptDir scripts⟩ := by
  induction scripts generalizing faults with
  | nil => rfl
  | cons p rest ih =>
    obtain ⟨content, h1, h2⟩ := h p (List.mem_cons_self _ _)
    have hr := runScript_skip env (faults 0) db ⟨scriptDir, p.name⟩ content h1 (hdb 0).1
      (hdb 0).2 h2
    unfold runLoop
    simp only [hr]
    rw [ih (fun i => faults (i + 1)) (fun i => hdb (i + 1))
      (fun s hs => h s (List.mem_cons_of_mem _ hs))]
    rfl

theorem skipEvents_no_effect {D : Type} (env : Env D) (scriptDir : String)
    (scripts : List FileInfo) :
    executedStatements (skipEvents env scriptDir scripts) = []
      ∧ (∀ name checksum ok, Event.insert name checksum ok ∉ skipEvents env scriptDir scripts)
      ∧ (∀ ok, Event.commit ok ∉ skipEvents env scriptDir scripts) := by
  induction scripts with
  | nil => simp [skipEvents, executedStatements]
  | cons p rest ih =>
    obtain ⟨h1, h2, h3⟩ := ih
    refine ⟨?_, ?_, ?_⟩
    · simp only [skipEvents, executedStatements_append, h1]
      simp [executedStatements]
    · intro name checksum ok
      simp [skipEvents, h2 name checksum ok]
    · intro ok
      simp [skipEvents, h3 ok]

/-! ## Histories of calls -/

theorem runCalls_step {D : Type} (db : Database D) (calls : List (Call D)) (st : Step D)
    (h : st ∈ runCalls db calls) :
    st.result = runScript st.call.env st.call.faults st.before st.call.src := by
  induction calls generalizing db with
  | nil => cases h
  | cons c rest ih =>
    simp only [runCalls, List.mem_cons] at h
    rcases h with rfl | h
    · rfl
    · exact ih _ h

theorem lookup_none_not_mem (l : List LedgerEntry) (n : String) (h : lookup l n = none) :
    n ∉ l.map LedgerEntry.script_name := by
  intro hm
  obtain ⟨e, he, hn⟩ := List.mem_map.1 hm
  exact (lookup_eq_none_iff l n).1 h e he hn

theorem stateAfter_names {D : Type} (db : Database D) (calls : List (Call D)) :
    (stateAfter db calls).executed_scripts.map LedgerEntry.script_name
      = db.executed_scripts.map LedgerEntry.script_name
        ++ ((runCalls db calls).filter Step.committed).map (fun st => st.call.identity) := by
  induction calls generalizing db with
  | nil => simp [stateAfter, runCalls]
  | cons c rest ih =>
    simp only [stateAfter, runCalls]
    rw [ih]
    rcases runScript_cases c.env c.faults db c.src with
      ⟨_, _, h2, h3⟩ | ⟨_, _, _, h2⟩ | ⟨_, _, _, _, _, h2⟩
    · have hc : Step.committed ⟨db, c, runScript c.env c.faults db c.src⟩ = false := by
        simp [Step.committed, h3]
      rw [List.filter_cons_of_neg (by simp [hc]), h2]
    · have hc : Step.committed ⟨db, c, runScript c.env c.faults db c.src⟩ = false := by
        simp [Step.committed, h2]
      rw [List.filter_cons_of_neg (by simp [hc])]
      rw [h2]
    · have hc : Step.committed ⟨db, c, runScript c.env c.faults db c.src⟩ = true := by
        simp [Step.committed, h2]
      rw [List.filter_cons_of_pos hc]
      rw [h2]
      simp [Call.identity]

theorem stateAfter_nodup {D : Type} (db : Database D) (calls : List (Call D))
    (h : (db.executed_scripts.map LedgerEntry.script_name).Nodup) :
    ((stateAfter db calls).executed_scripts.map LedgerEntry.script_name).Nodup := by
  induction calls generalizing db with
  | nil => exact h
  | cons c rest ih =>
    simp only [stateAfter]
    apply ih
    rcases runScript_cases c.env c.faults db c.src with
      ⟨_, _, h2, _⟩ | ⟨_, _, _, h2⟩ | ⟨_, _, _, h1, _, h2⟩
    · rw [h2]; exact h
    · rw [h2]; exact h
    · rw [h2]
      simp only [List.map_append, List.map_cons, List.map_nil]
      refine List.Nodup.append h (List.nodup_singleton _) ?_
      intro a ha hb
      rw [List.mem_singleton] at hb
      subst hb
      exact lookup_none_not_mem _ _ h1 ha

/-! ## A comment line at the head of a segment -/

theorem splitChars_append_sep (sep : Char) (l l1 : List Char) (h : sep ∉ l) :
    splitChars sep (l ++ sep :: l1) = l :: splitChars sep l1 := by
  induction l with
  | nil => simp [splitChars]
  | cons x xs ih =>
    have hx : x ≠ sep := fun e => h (by simp [e])
    have hxs : sep ∉ xs := fun e => h (List.mem_cons_of_mem _ e)
    have h1 := ih hxs
    rw [show (x :: xs) ++ sep :: l1 = x :: (xs ++ sep :: l1) from rfl]
    simp only [splitChars, hx, if_false, h1]

theorem dropTrailing_decomp (p : Char → Bool) (l : List Char) :
    ∃ w, l = dropTrailing p l ++ w ∧ ∀ x ∈ w, p x = true := by
  refine ⟨(l.reverse.takeWhile p).reverse, ?_, ?_⟩
  · unfold dropTrailing
    rw [← List.reverse_append, List.takeWhile_append_dropWhile, List.reverse_reverse]
  · intro x hx
    exact List.mem_takeWhile_imp (List.mem_reverse.1 hx)

theorem trim_comment_head (t : List Char) :
    ∃ r, dropTrailing isSpace (('-' :: '-' :: t).dropWhile isSpace) = '-' :: '-' :: r := by
  have hd : ('-' :: '-' :: t).dropWhile isSpace = '-' :: '-' :: t := by
    rw [List.dropWhile_cons_of_neg (by decide)]
  rw [hd]
  obtain ⟨w, hw, hsp⟩ := dropTrailing_decomp isSpace ('-' :: '-' :: t)
  have hdash : ∀ x ∈ w, x ≠ '-' := by
    intro x hx e
    have := hsp x hx
    rw [e] at this
    exact absurd this (by decide)
  cases hr : dropTrailing isSpace ('-' :: '-' :: t) with
  | nil =>
    rw [hr] at hw
    simp only [List.nil_append] at hw
    exact absurd rfl (hdash '-' (by rw [← hw]; simp))
  | cons a r1 =>
    cases r1 with
    | nil =>
      rw [hr] at hw
      simp only [List.cons_append, List.nil_append, List.cons.injEq] at hw
      exact absurd rfl (hdash '-' (by rw [← hw.2]; simp))
    | cons b r2 =>
      rw [hr] at hw
      simp only [List.cons_append, List.cons.injEq] at hw
      exact ⟨r2, by rw [← hw.1, ← hw.2.1]⟩

/-- A script made of a `--` comment line, a statement and the terminator has no statement
for the splitter: the one segment begins with `--` and is dropped whole. -/
theorem splitStatements_comment_line (c s : String) (t : List Char)
    (hc : c.data = '-' :: '-' :: t) (hc1 : ';' ∉ c.data) (hs : ';' ∉ s.data) :
    splitStatements (c ++ "\n" ++ s ++ ";") = [] := by
  have hdata : (c ++ "\n" ++ s ++ ";").data = (c.data ++ '\n' :: s.data) ++ ';' :: [] := by
    simp [String.data_append]
  have hno : ';' ∉ c.data ++ '\n' :: s.data := by
    intro hm
    rcases List.mem_append.1 hm with h | h
    · exact hc1 h
    · rcases List.mem_cons.1 h with h | h
      · exact absurd h (by decide)
      · exact hs h
  have hseg : stringsSplit (c ++ "\n" ++ s ++ ";") ';'
      = [String.mk (c.data ++ '\n' :: s.data), String.mk []] := by
    simp only [stringsSplit, hdata, splitChars_append_sep ';' _ [] hno, splitChars, List.map]
  apply keptStatements_eq_nil
  rw [hseg]
  intro seg hmem
  simp only [List.mem_cons, List.mem_singleton, List.not_mem_nil, or_false] at hmem
  rcases hmem with rfl | rfl
  · right
    obtain ⟨r, hr⟩ := trim_comment_head (t ++ '\n' :: s.data)
    simp only [stringsHasPrefix, stringsTrimSpace, hc, List.cons_append]
    rw [hr]
    simp [List.isPrefixOf]
  · left
    decide

/-! ## Claims -/

/-- C1. When `executeCommands` returns without error, the statements it submitted to the
transaction are exactly those of the reference splitter (`splitStatements`: cut at every `;`,
trim, drop the empty and the `--` segments, keep the order), each recorded as a successful
execution; and every such statement is non-empty, has no white space at its start or end,
contains no `;` and does not begin with `--`. -/
theorem executeCommands_submits_splitStatements {D : Type} (env : Env D) (tx : Tx D)
    (content : String) (h : (executeCommands env tx content).1 = none) :
    (executeCommands env tx content).2.log
        = tx.log ++ (splitStatements content).map (fun s => Event.exec s true)
      ∧ executedStatements (executeCommands env tx content).2.log
        = executedStatements tx.log ++ splitStatements content
      ∧ ∀ s ∈ splitStatements content,
          s ≠ "" ∧ (∀ c, s.data.head? = some c → isSpace c = false)
          ∧ (∀ c, s.data.getLast? = some c → isSpace c = false)
          ∧ ';' ∉ s.data ∧ stringsHasPrefix s "--" = false := by
  rw [executeCommands_eq] at h ⊢
  obtain ⟨d, hd⟩ := execStmts_none env _ tx h
  rw [execStmts_ok env _ tx d hd]
  refine ⟨rfl, ?_, ?_⟩
  · simp only [executedStatements_append, executedStatements_execEvents]
  · intro s hs
    obtain ⟨h1, h2, h3, h4, seg, hseg, _, hsub⟩ := keptStatements_spec _ s hs
    refine ⟨h1, h2, h3, ?_, h4⟩
    intro hmem
    obtain ⟨l, hl, rfl⟩ := List.mem_map.1 hseg
    exact not_mem_of_mem_splitChars ';' content.data l hl (hsub _ hmem)

/-- C1 at a script with two statements, a comment segment and a blank segment. -/
theorem executeCommands_submits_splitStatements_witness :
    (executeCommands demoEnv ⟨demoDb, demoDb, []⟩
        "CREATE TABLE y (id int);\n-- seed\n;INSERT INTO y VALUES (1);\n").1 = none
      ∧ (executeCommands demoEnv ⟨demoDb, demoDb, []⟩
        "CREATE TABLE y (id int);\n-- seed\n;INSERT INTO y VALUES (1);\n").2.log
        = [Event.exec "CREATE TABLE y (id int)" true, Event.exec "INSERT INTO y VALUES (1)" true] :=
  ⟨by decide,
    ((executeCommands_submits_splitStatements demoEnv ⟨demoDb, demoDb, []⟩
      "CREATE TABLE y (id int);\n-- seed\n;INSERT INTO y VALUES (1);\n" (by decide)).1).trans
      (by decide)⟩

/-- C2. `sortScripts` returns a permutation of the directory entries in ascending byte-wise
order of file names (no entry stands before one with a smaller name).  When the names are
pairwise distinct, that list is the only such permutation, so it does not depend on the sorting
algorithm; two listings of the same entries are sorted to the same list; and whichever listing
the file system returns, `runScripts` runs its loop over that one sorted list. -/
theorem sortScripts_sorted_permutation (fileInfos : List FileInfo) :
    (sortScripts fileInfos).Perm fileInfos
      ∧ (sortScripts fileInfos).Pairwise (fun a b => stringLess b.name a.name = false)
      ∧ ((fileInfos.map FileInfo.name).Nodup →
          (∀ sorted : List FileInfo, sorted.Perm fileInfos →
              sorted.Pairwise (fun a b => stringLess b.name a.name = false) →
              sorted = sortScripts fileInfos)
          ∧ ∀ listing : List FileInfo, listing.Perm fileInfos →
              sortScripts listing = sortScripts fileInfos
              ∧ ∀ (D : Type) (env : Env D) (faults : Nat → Faults) (db : Database D)
                  (scriptDir : String), env.readDir scriptDir = .ok listing →
                  runScripts env faults db scriptDir
                    = runLoop env scriptDir faults db (sortScripts fileInfos)) := by
  refine ⟨sortSlice_perm fileInfos, sortSlice_sorted fileInfos, ?_⟩
  intro hn
  constructor
  · intro sorted hp hs
    have hn1 : (sorted.map FileInfo.name).Nodup := ((hp.map FileInfo.name).nodup_iff).2 hn
    exact sorted_unique sorted (sortScripts fileInfos)
      (hp.trans (sortSlice_perm fileInfos).symm) hn1 hs (sortSlice_sorted fileInfos)
  · intro listing hp
    have heq := sortScripts_eq_of_perm listing fileInfos hp hn
    refine ⟨heq, ?_⟩
    intro D env faults db scriptDir hdir
    simp only [runScripts, hdir, heq]

/-- C2 at the listing `0002_x.sql`, `0001_y.sql`: both listing orders are sorted to
`0001_y.sql`, `0002_x.sql`. -/
theorem sortScripts_sorted_permutation_witness :
    sortScripts [⟨"0002_x.sql", 19, false⟩, ⟨"0001_y.sql", 60, false⟩]
        = sortScripts [⟨"0001_y.sql", 60, false⟩, ⟨"0002_x.sql", 19, false⟩]
      ∧ sortScripts [⟨"0002_x.sql", 19, false⟩, ⟨"0001_y.sql", 60, false⟩]
        = [⟨"0001_y.sql", 60, false⟩, ⟨"0002_x.sql", 19, false⟩] :=
  ⟨(((sortScripts_sorted_permutation
      [⟨"0001_y.sql", 60, false⟩, ⟨"0002_x.sql", 19, false⟩]).2.2 (by decide)).2
      [⟨"0002_x.sql", 19, false⟩, ⟨"0001_y.sql", 60, false⟩]
      (List.Perm.swap _ _ _)).1, by decide⟩

/-- C3. If the identity of a script has no ledger entry, its content can be read, the
transaction opens and the lookup answers, every statement of the content executes, and the
insert and the commit succeed, then `runScript` returns success, has submitted exactly the
statements of `splitStatements content` in order (all of them successful), between the lookup
and the insert, and the committed ledger is the previous ledger followed by the one entry
(joined path, checksum of the content), the user schema being the result of the statements.
When every segment of the content is blank or begins with `--`, no statement is executed and
the script is recorded all the same. -/
theorem runScript_applies_and_records {D : Type} (env : Env D) (f : Faults) (db : Database D)
    (src : scriptSource) (content : String) (d : D)
    (hread : env.readFile (src.join env) = .ok content)
    (hbegin : f.beginTx = none) (hquery : f.query = none)
    (hrow : ∀ e ∈ db.executed_scripts, e.script_name ≠ src.join env)
    (hexec : execAll env (splitStatements content) db.data = .ok d)
    (hinsert : f.insert = none) (hcommit : f.commit = none) :
    (runScript env f db src).err = none
      ∧ executedStatements (runScript env f db src).events = splitStatements content
      ∧ (runScript env f db src).events
          = [Event.beginTx true, Event.query (src.join env)]
            ++ (splitStatements content).map (fun s => Event.exec s true)
            ++ [Event.insert (src.join env) (calculateChecksum env content) true,
                Event.commit true, Event.rollback]
      ∧ (runScript env f db src).db
          = ⟨d, db.executed_scripts ++ [⟨src.join env, calculateChecksum env content⟩]⟩
      ∧ ((∀ seg ∈ stringsSplit content ';', stringsTrimSpace seg = ""
            ∨ stringsHasPrefix (stringsTrimSpace seg) "--" = true) →
          executedStatements (runScript env f db src).events = []
          ∧ (runScript env f db src).db
            = ⟨db.data, db.executed_scripts ++ [⟨src.join env, calculateChecksum env content⟩]⟩) := by
  have hrow1 := (lookup_eq_none_iff _ _).2 hrow
  have hr := runScript_applied env f db src content d hread hbegin hquery hrow1 hexec hinsert
    hcommit
  have hstm : executedStatements (runScript env f db src).events = splitStatements content := by
    rw [hr]
    simp only [executedStatements_append, executedStatements_execEvents]
    simp [executedStatements]
  refine ⟨by rw [hr], hstm, by rw [hr]; rfl, by rw [hr], ?_⟩
  intro hblank
  have hnil : splitStatements content = [] := keptStatements_eq_nil _ hblank
  rw [hnil] at hexec
  simp only [execAll, Except.ok.injEq] at hexec
  rw [hstm, hnil, hr, ← hexec]
  exact ⟨rfl, rfl⟩

/-- C3 at the script `-- comment\n;\n   ;\n` on an empty database: no statement is executed and
the script is recorded with the checksum of that content. -/
theorem runScript_applies_and_records_witness :
    (runScript demoEnv Faults.none demoDb ⟨"migrations", "0002_x.sql"⟩).err = none
      ∧ executedStatements
          (runScript demoEnv Faults.none demoDb ⟨"migrations", "0002_x.sql"⟩).events = []
      ∧ (runScript demoEnv Faults.none demoDb ⟨"migrations", "0002_x.sql"⟩).db
          = ⟨[], [⟨"migrations/0002_x.sql", "md5(-- comment\n;\n   ;\n)"⟩]⟩ :=
  have h := runScript_applies_and_records demoEnv Faults.none demoDb
    ⟨"migrations", "0002_x.sql"⟩ "-- comment\n;\n   ;\n" [] (by rfl) rfl rfl
    (by intro e he; cases he) (by rfl) rfl rfl
  ⟨h.1, (h.2.2.2.2 (by decide)).1, (h.2.2.2.2 (by decide)).2⟩

/-- C4. If the lookup finds no entry and the `k`-th statement of the script (`s`, after the
statements `pre`) fails, then `runScript` returns the wrapped error of that statement, the
statements submitted are `pre` and `s` and none of those after `s`, no insert and no commit
is submitted, the transaction ends with the rollback, and the committed database (user schema
and ledger) is the one from before the call. -/
theorem runScript_statement_failure_rolls_back {D : Type} (env : Env D) (f : Faults)
    (db : Database D) (src : scriptSource) (content : String) (pre : List String) (s : String)
    (post : List String) (d : D) (err : String)
    (hread : env.readFile (src.join env) = .ok content)
    (hbegin : f.beginTx = none) (hquery : f.query = none)
    (hrow : ∀ e ∈ db.executed_scripts, e.script_name ≠ src.join env)
    (hsplit : splitStatements content = pre ++ s :: post)
    (hpre : execAll env pre db.data = .ok d) (hs : env.execSQL s d = .error err) :
    (runScript env f db src).err = some (failMessage (src.join env) err)
      ∧ executedStatements (runScript env f db src).events = pre ++ [s]
      ∧ (runScript env f db src).events
          = [Event.beginTx true, Event.query (src.join env)]
            ++ pre.map (fun p => Event.exec p true) ++ [Event.exec s false, Event.rollback]
      ∧ (∀ name checksum ok, Event.insert name checksum ok ∉ (runScript env f db src).events)
      ∧ (∀ ok, Event.commit ok ∉ (runScript env f db src).events)
      ∧ (runScript env f db src).db = db := by
  have hrow1 := (lookup_eq_none_iff _ _).2 hrow
  have hr := runScript_statementError env f db src content pre s post d err hread hbegin hquery
    hrow1 hsplit hpre hs
  rw [hr]
  refine ⟨rfl, ?_, rfl, ?_, ?_, rfl⟩
  · simp only [executedStatements_append, executedStatements_execEvents]
    simp [executedStatements]
  · intro name checksum ok
    simp [execEvents]
  · intro ok
    simp [execEvents]

/-- C4 at a script of four statements whose third fails: the first two are submitted and rolled
back, the fourth is not submitted, and the database is as before. -/
theorem runScript_statement_failure_rolls_back_witness :
    (runScript demoEnv Faults.none demoDb ⟨"migrations", "0003_z.sql"⟩).err
        = some "error running migtaion script migrations/0003_z.sql: pq: syntax error\n"
      ∧ executedStatements
          (runScript demoEnv Faults.none demoDb ⟨"migrations", "0003_z.sql"⟩).events
        = ["CREATE TABLE z (id int)", "INSERT INTO z VALUES (1)", "FAIL"]
      ∧ (runScript demoEnv Faults.none demoDb ⟨"migrations", "0003_z.sql"⟩).db = demoDb :=
  have h := runScript_statement_failure_rolls_back demoEnv Faults.none demoDb
    ⟨"migrations", "0003_z.sql"⟩
    "CREATE TABLE z (id int); INSERT INTO z VALUES (1); FAIL; DROP TABLE z"
    ["CREATE TABLE z (id int)", "INSERT INTO z VALUES (1)"] "FAIL" ["DROP TABLE z"]
    ["CREATE TABLE z (id int)", "INSERT INTO z VALUES (1)"] "pq: syntax error"
    (by rfl) rfl rfl (by intro e he; cases he) (by decide) (by rfl) (by rfl)
  ⟨h.1, h.2.1, h.2.2.2.2.2⟩

/-- C5. If the ledger holds, for the identity of the script, a checksum different from the
checksum of the current content, then `runScript` fails, whatever the driver does: it submits
no statement, no insert and no commit, and the committed database, ledger included, is
unchanged.  When the transaction opens and the lookup answers, the message is
`error running migtaion script <identity>: invalid checksum for migration '<identity>'
(<computed> != <stored>)`, naming the identity, the computed and the stored checksum, and
the only driver calls are the begin, the lookup and the rollback. -/
theorem runScript_checksum_mismatch {D : Type} (env : Env D) (f : Faults) (db : Database D)
    (src : scriptSource) (content stored : String)
    (hread : env.readFile (src.join env) = .ok content)
    (hrow : lookup db.executed_scripts (src.join env) = some stored)
    (hne : stored ≠ calculateChecksum env content) :
    (runScript env f db src).err ≠ none
      ∧ executedStatements (runScript env f db src).events = []
      ∧ (∀ name checksum ok, Event.insert name checksum ok ∉ (runScript env f db src).events)
      ∧ (∀ ok, Event.commit ok ∉ (runScript env f db src).events)
      ∧ (runScript env f db src).db = db
      ∧ (f.beginTx = none → f.query = none →
          (runScript env f db src).err
            = some ("error running migtaion script " ++ src.join env ++ ": "
                ++ ("invalid checksum for migration '" ++ src.join env ++ "' ("
                  ++ calculateChecksum env content ++ " != " ++ stored ++ ")") ++ "\n")
          ∧ (runScript env f db src).events
            = [Event.beginTx true, Event.query (src.join env), Event.rollback]) := by
  cases hbegin : f.beginTx with
  | some err =>
    rw [runScript_beginError env f db src content err hread hbegin]
    simp [executedStatements]
  | none =>
    cases hquery : f.query with
    | some err =>
      rw [runScript_queryError env f db src content err hread hbegin hquery]
      simp [executedStatements]
    | none =>
      rw [runScript_mismatch env f db src content stored hread hbegin hquery hrow hne]
      simp [executedStatements, failMessage]

/-- C5 at a ledger that holds an older checksum for `0002_x.sql`. -/
theorem runScript_checksum_mismatch_witness :
    (runScript demoEnv Faults.none ⟨[], [⟨"migrations/0002_x.sql", "md5(-- old\n)"⟩]⟩
        ⟨"migrations", "0002_x.sql"⟩).err
        = some ("error running migtaion script migrations/0002_x.sql: invalid checksum for "
            ++ "migration 'migrations/0002_x.sql' (md5(-- comment\n;\n   ;\n) != md5(-- old\n))\n")
      ∧ (runScript demoEnv Faults.none ⟨[], [⟨"migrations/0002_x.sql", "md5(-- old\n)"⟩]⟩
        ⟨"migrations", "0002_x.sql"⟩).db.executed_scripts
        = [⟨"migrations/0002_x.sql", "md5(-- old\n)"⟩] :=
  have h := runScript_checksum_mismatch demoEnv Faults.none
    ⟨[], [⟨"migrations/0002_x.sql", "md5(-- old\n)"⟩]⟩ ⟨"migrations", "0002_x.sql"⟩
    "-- comment\n;\n   ;\n" "md5(-- old\n)" (by rfl) (by rfl) (by decide)
  ⟨(h.2.2.2.2.2 rfl rfl).1.trans (by decide), by rw [h.2.2.2.2.1]⟩

/-- C6. Let the sorted list of entries be `pre ++ s :: post`, let every call of `runScript` for
the entries of `pre` succeed, and let the call for `s`, on the database those calls left, return
the error `e`.  Then `runScripts` returns exactly `e`; its driver calls are those of the calls
for `pre` and for `s` and nothing else, whatever `post` is; and the committed database is the
one the calls for `pre` left.  If the call for every entry succeeds, `runScripts` returns
success, and its driver calls and database are those of one call per entry, in order. -/
theorem runScripts_stops_at_first_failure {D : Type} (env : Env D) (faults : Nat → Faults)
    (db : Database D) (scriptDir : String) (fileInfos : List FileInfo)
    (hdir : env.readDir scriptDir = .ok fileInfos) :
    (∀ (pre : List FileInfo) (s : FileInfo) (post : List FileInfo) (e : String),
        sortScripts fileInfos = pre ++ s :: post →
        (∀ r ∈ runAll env scriptDir faults db pre, r.err = none) →
        (runScript env (faults pre.length) (dbAfter db (runAll env scriptDir faults db pre))
          ⟨scriptDir, s.name⟩).err = some e →
        runScripts env faults db scriptDir
          = ⟨some e, dbAfter db (runAll env scriptDir faults db pre),
              allEvents (runAll env scriptDir faults db pre)
                ++ (runScript env (faults pre.length)
                    (dbAfter db (runAll env scriptDir faults db pre))
                    ⟨scriptDir, s.name⟩).events⟩)
      ∧ ((∀ r ∈ runAll env scriptDir faults db (sortScripts fileInfos), r.err = none) →
          runScripts env faults db scriptDir
            = ⟨none, dbAfter db (runAll env scriptDir faults db (sortScripts fileInfos)),
                allEvents (runAll env scriptDir faults db (sortScripts fileInfos))⟩
          ∧ (runAll env scriptDir faults db (sortScripts fileInfos)).length
            = fileInfos.length) := by
  constructor
  · intro pre s post e hsplit hpre hs
    simp only [runScripts, hdir, hsplit]
    exact runLoop_first_failure env scriptDir pre s post faults db e hpre hs
  · intro hall
    simp only [runScripts, hdir]
    refine ⟨runLoop_all_ok env scriptDir _ faults db hall, ?_⟩
    rw [runAll_length]
    exact (sortSlice_perm fileInfos).length_eq

/-- C6 at a directory of three scripts whose second fails: the error is that of the second
script, the first script is recorded, the third is not run. -/
theorem runScripts_stops_at_first_failure_witness :
    (runScripts demoEnv (fun _ => Faults.none) demoDb "broken").err
        = some "error running migtaion script broken/0002_b.sql: pq: syntax error\n"
      ∧ (runScripts demoEnv (fun _ => Faults.none) demoDb "broken").db
        = ⟨["CREATE TABLE a (id int)"],
            [⟨"broken/0001_a.sql", "md5(CREATE TABLE a (id int);)"⟩]⟩
      ∧ executedStatements (runScripts demoEnv (fun _ => Faults.none) demoDb "broken").events
        = ["CREATE TABLE a (id int)", "CREATE TABLE b (id int)", "FAIL"] :=
  have h := (runScripts_stops_at_first_failure demoEnv (fun _ => Faults.none) demoDb "broken"
    [⟨"0003_c.sql", 24, false⟩, ⟨"0001_a.sql", 24, false⟩, ⟨"0002_b.sql", 30, false⟩]
    (by rfl)).1 [⟨"0001_a.sql", 24, false⟩] ⟨"0002_b.sql", 30, false⟩
    [⟨"0003_c.sql", 24, false⟩]
    "error running migtaion script broken/0002_b.sql: pq: syntax error\n"
    (by decide) (by decide) (by decide)
  ⟨by rw [h], by rw [h]; rfl, by rw [h]; decide⟩

/-- C8. If a first `runScripts` succeeds (from any ledger, in particular an empty one) and a
second `runScripts` reads the same directory and the same files, its transactions opening and
its lookups answering, then the second run succeeds, finds for every script a stored checksum
equal to the computed one and takes the skip branch (begin, lookup, rollback) for each,
submits no statement, no insert and no commit, and leaves the committed database, ledger
included, exactly as the first run left it. -/
theorem runScripts_idempotent {D : Type} (env : Env D) (faults faults2 : Nat → Faults)
    (db : Database D) (scriptDir : String)
    (hfirst : (runScripts env faults db scriptDir).err = none)
    (hdriver : ∀ i, (faults2 i).beginTx = none ∧ (faults2 i).query = none) :
    (runScripts env faults2 (runScripts env faults db scriptDir).db scriptDir).err = none
      ∧ (runScripts env faults2 (runScripts env faults db scriptDir).db scriptDir).db
        = (runScripts env faults db scriptDir).db
      ∧ executedStatements
          (runScripts env faults2 (runScripts env faults db scriptDir).db scriptDir).events = []
      ∧ (∀ name checksum ok, Event.insert name checksum ok ∉
          (runScripts env faults2 (runScripts env faults db scriptDir).db scriptDir).events)
      ∧ (∀ ok, Event.commit ok ∉
          (runScripts env faults2 (runScripts env faults db scriptDir).db scriptDir).events)
      ∧ ∃ fileInfos, env.readDir scriptDir = .ok fileInfos
        ∧ (runScripts env faults2 (runScripts env faults db scriptDir).db scriptDir).events
          = skipEvents env scriptDir (sortScripts fileInfos)
        ∧ ∀ s ∈ sortScripts fileInfos, ∃ content,
            env.readFile (scriptSource.join env ⟨scriptDir, s.name⟩) = .ok content
            ∧ lookup (runScripts env faults db scriptDir).db.executed_scripts
                (scriptSource.join env ⟨scriptDir, s.name⟩)
              = some (calculateChecksum env content) := by
  cases hdir : env.readDir scriptDir with
  | error err => simp [runScripts, hdir] at hfirst
  | ok fileInfos =>
    simp only [runScripts, hdir] at hfirst ⊢
    have hrec := runLoop_ok_recorded env scriptDir (sortScripts fileInfos) faults db hfirst
    have hskip := runLoop_all_skip env scriptDir (sortScripts fileInfos) faults2 _ hdriver hrec
    obtain ⟨h1, h2, h3⟩ := skipEvents_no_effect env scriptDir (sortScripts fileInfos)
    rw [hskip]
    exact ⟨rfl, rfl, h1, h2, h3, fileInfos, rfl, rfl, hrec⟩

/-- C8 at the example directory: the second run changes nothing and submits no statement. -/
theorem runScripts_idempotent_witness :
    (runScripts demoEnv (fun _ => Faults.none) demoDb "migrations").err = none
      ∧ (runScripts demoEnv (fun _ => Faults.none) demoDb "migrations").db.executed_scripts
        = [⟨"migrations/0001_y.sql",
              "md5(CREATE TABLE y (id int);\n-- seed\n;INSERT INTO y VALUES (1);\n)"⟩,
            ⟨"migrations/0002_x.sql", "md5(-- comment\n;\n   ;\n)"⟩]
      ∧ (runScripts demoEnv (fun _ => Faults.none)
          (runScripts demoEnv (fun _ => Faults.none) demoDb "migrations").db "migrations").db
        = (runScripts demoEnv (fun _ => Faults.none) demoDb "migrations").db
      ∧ executedStatements (runScripts demoEnv (fun _ => Faults.none)
          (runScripts demoEnv (fun _ => Faults.none) demoDb "migrations").db
          "migrations").events = [] :=
  have h := runScripts_idempotent demoEnv (fun _ => Faults.none) (fun _ => Faults.none) demoDb
    "migrations" (by decide) (fun _ => ⟨rfl, rfl⟩)
  ⟨by decide, by decide, h.2.1, h.2.2.1⟩

/-- C9. From a database with an empty ledger and any user schema, after any sequence of calls
of `runScript` (with any files, statement outcomes and driver faults): a step whose transaction
committed is a whole transaction of its script, that is begin, lookup, every statement of the
content in order and successful, the insert of (identity, checksum), commit, and its database
is the previous one with the statements applied and that one entry appended; a step that did
not commit leaves the committed database, schema and ledger, untouched; the names in the
ledger are, in order, the identities of the committed steps, so an identity has an entry if
and only if a committed step of that identity exists; and no identity occurs twice, neither
in the ledger nor among the committed steps. -/
theorem ledger_invariant {D : Type} (db0 : Database D) (calls : List (Call D))
    (h0 : db0.executed_scripts = []) :
    (∀ st ∈ runCalls db0 calls, Event.commit true ∈ st.result.events →
        ∃ content d, st.call.env.readFile st.call.identity = .ok content
          ∧ execAll st.call.env (splitStatements content) st.before.data = .ok d
          ∧ st.result.err = none
          ∧ st.result.events
            = [Event.beginTx true, Event.query st.call.identity]
              ++ (splitStatements content).map (fun s => Event.exec s true)
              ++ [Event.insert st.call.identity (calculateChecksum st.call.env content) true,
                  Event.commit true, Event.rollback]
          ∧ st.result.db
            = ⟨d, st.before.executed_scripts
                ++ [⟨st.call.identity, calculateChecksum st.call.env content⟩]⟩)
      ∧ (∀ st ∈ runCalls db0 calls, Event.commit true ∉ st.result.events →
          st.result.db = st.before)
      ∧ (stateAfter db0 calls).executed_scripts.map LedgerEntry.script_name
        = ((runCalls db0 calls).filter Step.committed).map (fun st => st.call.identity)
      ∧ (∀ name, (∃ e ∈ (stateAfter db0 calls).executed_scripts, e.script_name = name)
          ↔ ∃ st ∈ runCalls db0 calls,
              Event.commit true ∈ st.result.events ∧ st.call.identity = name)
      ∧ ((stateAfter db0 calls).executed_scripts.map LedgerEntry.script_name).Nodup
      ∧ (((runCalls db0 calls).filter Step.committed).map (fun st => st.call.identity)).Nodup := by
  have hnames := stateAfter_names db0 calls
  rw [h0, List.map_nil, List.nil_append] at hnames
  have hnodup := stateAfter_nodup db0 calls (by rw [h0]; exact List.nodup_nil)
  refine ⟨?_, ?_, hnames, ?_, hnodup, hnames ▸ hnodup⟩
  · intro st hst hc
    have hr := runCalls_step db0 calls st hst
    rcases runScript_cases st.call.env st.call.faults st.before st.call.src with
      ⟨_, _, _, h3⟩ | ⟨_, _, _, h2⟩ | ⟨content, d, h1, _, h2, h3⟩
    · rw [hr] at hc; exact absurd hc h3
    · rw [hr, h2] at hc; simp at hc
    · refine ⟨content, d, h1, h2, ?_, ?_, ?_⟩
      · rw [hr, h3]
      · rw [hr, h3]; rfl
      · rw [hr, h3]; rfl
  · intro st hst hc
    have hr := runCalls_step db0 calls st hst
    rcases runScript_cases st.call.env st.call.faults st.before st.call.src with
      ⟨_, _, h2, _⟩ | ⟨_, _, _, h2⟩ | ⟨_, _, _, _, _, h3⟩
    · rw [hr, h2]
    · rw [hr, h2]
    · rw [hr, h3] at hc; simp at hc
  · intro name
    have hiff : (∃ e ∈ (stateAfter db0 calls).executed_scripts, e.script_name = name)
        ↔ name ∈ (stateAfter db0 calls).executed_scripts.map LedgerEntry.script_name := by
      simp [List.mem_map]
    rw [hiff, hnames]
    simp [List.mem_map, List.mem_filter, Step.committed, and_assoc]

/-- C9 at a history of five calls from the empty database: two of them commit, and the ledger
names exactly their two identities. -/
theorem ledger_invariant_witness :
    demoDb.executed_scripts = []
      ∧ (stateAfter demoDb demoCalls).executed_scripts.map LedgerEntry.script_name
        = ["migrations/0001_y.sql", "migrations/0002_x.sql"]
      ∧ ((runCalls demoDb demoCalls).filter Step.committed).map (fun st => st.call.identity)
        = ["migrations/0001_y.sql", "migrations/0002_x.sql"] :=
  have h := ledger_invariant demoDb demoCalls rfl
  ⟨rfl, by decide, h.2.2.1.symm.trans (by decide)⟩

/-- C7, where the code differs from the claim.  `Migrate` does not look at the result of
`createExecutedScriptsTable`: when the creation of the ledger table fails, the outcome is that
of `runScripts`, after the failed creation.  In the example the creation fails, and
`Migrate` lists the directory, runs both scripts and returns success. -/
theorem Migrate_ignores_createTable_error :
    (∀ (D : Type) (env : Env D) (e : String) (faults : Nat → Faults) (db : Database D),
        (Migrate env (some e) faults db).err = (runScripts env faults db "./migrations").err
        ∧ (Migrate env (some e) faults db).db = (runScripts env faults db "./migrations").db
        ∧ (Migrate env (some e) faults db).events
          = Event.createTable false :: (runScripts env faults db "./migrations").events)
      ∧ (Migrate demoEnv (some "pq: canceling statement due to lock timeout")
          (fun _ => Faults.none) demoDb).err = none
      ∧ executedStatements (Migrate demoEnv (some "pq: canceling statement due to lock timeout")
          (fun _ => Faults.none) demoDb).events
        = ["CREATE TABLE y (id int)", "INSERT INTO y VALUES (1)"]
      ∧ (Migrate demoEnv (some "pq: canceling statement due to lock timeout")
          (fun _ => Faults.none) demoDb).db.executed_scripts
        = [⟨"migrations/0001_y.sql",
              "md5(CREATE TABLE y (id int);\n-- seed\n;INSERT INTO y VALUES (1);\n)"⟩,
            ⟨"migrations/0002_x.sql", "md5(-- comment\n;\n   ;\n)"⟩] := by
  refine ⟨?_, by decide, by decide, by decide⟩
  intro D env e faults db
  simp only [Migrate, createExecutedScriptsTable]
  split <;> rename_i h <;> simp [h]

/-- C10, where the code differs from the claim.  For every comment line `c` that begins with
`--` and every statement text `s`, neither containing `;`, `executeCommands` on
`c ++ "\n" ++ s ++ ";"` submits nothing to the transaction and returns success: the segment
begins with `--`, so it is dropped together with the statement. -/
theorem executeCommands_drops_statement_after_comment {D : Type} (env : Env D) (tx : Tx D)
    (c s : String) (hc : stringsHasPrefix c "--" = true) (hc1 : ';' ∉ c.data)
    (hs : ';' ∉ s.data) :
    splitStatements (c ++ "\n" ++ s ++ ";") = []
      ∧ executeCommands env tx (c ++ "\n" ++ s ++ ";") = (none, tx) := by
  have hpre : "--".data <+: c.data := List.isPrefixOf_iff_prefix.1 hc
  obtain ⟨t, ht⟩ := hpre
  have hnil := splitStatements_comment_line c s t ht.symm hc1 hs
  refine ⟨hnil, ?_⟩
  rw [executeCommands_eq, hnil]
  rfl

/-- C10 at the script `-- add the users table\nCREATE TABLE users (id int);`: the statement
`CREATE TABLE users (id int)` is not submitted, and `runScript` records the script as applied
without having executed anything. -/
theorem executeCommands_drops_statement_after_comment_witness :
    executeCommands demoEnv ⟨demoDb, demoDb, []⟩
        ("-- add the users table" ++ "\n" ++ "CREATE TABLE users (id int)" ++ ";")
        = (none, ⟨demoDb, demoDb, []⟩)
      ∧ (runScript { demoEnv with
            readFile := fun _ => .ok "-- add the users table\nCREATE TABLE users (id int);" }
          Faults.none demoDb ⟨"migrations", "0001_users.sql"⟩).db
        = ⟨[], [⟨"migrations/0001_users.sql",
            "md5(-- add the users table\nCREATE TABLE users (id int);)"⟩]⟩ :=
  ⟨(executeCommands_drops_statement_after_comment demoEnv ⟨demoDb, demoDb, []⟩
      "-- add the users table" "CREATE TABLE users (id int)" (by decide) (by decide)
      (by decide)).2, by rfl⟩

end Migrations
